import Mathlib

/-!
Verification development for the sql-forge linting engine.

The definitions below are shallow embeddings of the Rust source:
  - `crates/lib/src/core/linter/linted_file.rs`
    (`build_up_fixed_source_string`, `slice_source_file_using_patches`)
  - `crates/lib/src/core/parser/match_result.rs` (`MatchResult`, `append`)
  - `crates/lib/src/core/parser/segments/base.rs` (`apply_fixes`, `position_segments`)
  - `src/core/dialects/base.rs` (`Dialect::ref`, `Dialect::extend`, `check_unique_names`)
  - `crates/lib/src/core/rules/base.rs` (`Rule::crawl`)

Machine integers (`u32`, `usize`) are modelled as `Nat`; the values involved
are indices and identifiers that never overflow in the modelled scenarios.
Rust strings are modelled as Lean `String` (lists of characters); all concrete
inputs are ASCII so byte indices and character indices coincide.
Rust panics and `assert!` failures are modelled with `Except`/`Option`.
-/

namespace SqlForge

/-- Rust `Range<usize>`: a half-open interval `start..stop`
(`end` is a Lean keyword, so the upper bound is called `stop`). -/
structure RangeN where
  start : Nat
  stop : Nat
deriving DecidableEq, Repr

/-- Modelled from the spec: `FixPatch` (its file, `segments/fix.rs`, is not under
`src/`; the verified functions only read `source_slice` and `fixed_raw`).
Field order follows the `FixPatch::new` calls in the tests of `linted_file.rs`:
`(templated_slice, fixed_raw, patch_category, source_slice, templated_str, source_str)`. -/
structure FixPatch where
  templated_slice : RangeN
  fixed_raw : String
  patch_category : String
  source_slice : RangeN
  templated_str : String
  source_str : String
deriving DecidableEq, Repr

/-- Modelled from the spec: `RawFileSlice` (templaters/base.rs is not under `src/`).
A source-only region of the raw file: its text, its type tag
(for example "comment") and its starting byte offset in the source.
Constructed in the source as `RawFileSlice::new(raw, slice_type, source_idx, None, None)`. -/
structure RawFileSlice where
  raw : String
  slice_type : String
  source_idx : Nat
deriving DecidableEq, Repr

/-- `RawFileSlice::source_slice()`: the source range covered by the slice. -/
def RawFileSlice.source_slice (s : RawFileSlice) : RangeN :=
  ⟨s.source_idx, s.source_idx + s.raw.length⟩

/-- Rust `&s[r.start..r.end]`: the substring of `s` on the half-open range `r`. -/
def sliceStr (s : String) (r : RangeN) : String :=
  String.mk ((s.data.drop r.start).take (r.stop - r.start))

/-- The inner loop of `build_up_fixed_source_string`
(`linted_file.rs:42-48`): scan the patch list in order and `break` at the
first patch whose `source_slice` equals the current slice, yielding its
`fixed_raw`; yield `none` when no patch matches. -/
def lookupPatch : List FixPatch → RangeN → Option String
  | [], _ => none
  | p :: rest, sl => if p.source_slice = sl then some p.fixed_raw else lookupPatch rest sl

/-- `LintedFile::build_up_fixed_source_string` (`linted_file.rs:32-55`):
for each slice of the buffer, emit the `fixed_raw` of the first patch whose
`source_slice` equals the slice, otherwise the raw substring of the source.
The `str_buff` accumulation of the loop is rendered as left-to-right
concatenation. -/
def buildUpFixedSourceString : List RangeN → List FixPatch → String → String
  | [], _, _ => ""
  | sl :: rest, patches, raw =>
      (match lookupPatch patches sl with
       | some fixed => fixed
       | none => sliceStr raw sl) ++ buildUpFixedSourceString rest patches raw

/-- The `while` loop at `linted_file.rs:145-157`: consume leading source-only
slices that start before the current patch, pushing a pre-slice (when the
slice extends beyond the cursor) and then the source-only slice itself, and
advancing the cursor to its end.  Returns the remaining source-only slices,
the new cursor and the extended slice buffer. -/
def consumeSourceOnly (patchStart : Nat) :
    List RawFileSlice → Nat → List RangeN → (List RawFileSlice × Nat × List RangeN)
  | [], source_idx, buff => ([], source_idx, buff)
  | s :: rest, source_idx, buff =>
      if s.source_idx < patchStart then
        let nso := s.source_slice
        let buff := if source_idx < nso.stop then buff ++ [⟨source_idx, nso.start⟩] else buff
        consumeSourceOnly patchStart rest nso.stop (buff ++ [nso])
      else (s :: rest, source_idx, buff)

/-- The patch loop of `slice_source_file_using_patches`
(`linted_file.rs:139-187`), threading the cursor, the remaining source-only
slices and the slice buffer; returns the buffer and the final cursor. -/
def sliceLoop : List FixPatch → List RawFileSlice → Nat → List RangeN → (List RangeN × Nat)
  | [], _, source_idx, buff => (buff, source_idx)
  | patch :: rest, so, source_idx, buff =>
      let st := consumeSourceOnly patch.source_slice.start so source_idx buff
      let so := st.1
      let source_idx := st.2.1
      let buff := st.2.2
      -- Does this patch cover the next source-only slice directly?
      let so := match so with
        | s :: tl => if patch.source_slice = s.source_slice then tl else s :: tl
        | [] => []
      -- Is there a gap between current position and this patch?
      let buff :=
        if source_idx < patch.source_slice.start then
          buff ++ [⟨source_idx, patch.source_slice.start⟩]
        else buff
      -- Is this patch covering an area already covered?  Then `continue`.
      if patch.source_slice.start < source_idx then
        sliceLoop rest so source_idx buff
      else
        sliceLoop rest so patch.source_slice.stop (buff ++ [patch.source_slice])

/-- `LintedFile::slice_source_file_using_patches` (`linted_file.rs:128-194`). -/
def sliceSourceFileUsingPatches (source_patches : List FixPatch)
    (source_only_slices : List RawFileSlice) (raw_source_string : String) : List RangeN :=
  let st := sliceLoop source_patches source_only_slices 0 []
  if st.2 < raw_source_string.length then st.1 ++ [⟨st.2, raw_source_string.length⟩] else st.1

/-- Modelled from the spec: the syntax-kind tag of a segment (the source's
closed fieldless enum `SyntaxKind` is not under `src/`); none of the verified
operations inspect particular kinds, so it is represented by its
discriminant. -/
abbrev SyntaxKind := Nat

/-- Modelled from the spec: the dialect identifier (`DialectKind`, a fieldless
enum not inspected by the verified operations). -/
abbrev DialectKind := Nat

/-- Modelled from the spec: `PositionMarker` (markers.rs is not under `src/`):
a segment's raw-source byte range, templated byte range and working
line/column coordinates. -/
structure PositionMarker where
  source_slice : RangeN
  templated_slice : RangeN
  working_line_no : Nat
  working_line_pos : Nat
deriving DecidableEq, Repr

/-- `NodeOrToken` / `ErasedSegment` (`segments/base.rs:1003-1041`): a leaf
token with its raw text, or an interior node with its ordered children.
The lazily-memoized caches (`raw`, `descendant_type_set`,
`raw_segments_with_ancestors`) are computed by functions here instead of
being stored, and the `source_fixes` micro-edit list is omitted: none of the
verified operations consume it.  `class_types` is derived from the
syntax kind by `class_types` in the source and is likewise not stored. -/
inductive Segment where
  | token (id : Nat) (syntax_kind : SyntaxKind) (position_marker : Option PositionMarker)
      (raw : String)
  | node (id : Nat) (syntax_kind : SyntaxKind) (position_marker : Option PositionMarker)
      (dialect : DialectKind) (segments : List Segment)

/-- `ErasedSegment::id`. -/
def Segment.id : Segment → Nat
  | .token i _ _ _ => i
  | .node i _ _ _ _ => i

/-- `ErasedSegment::get_type`. -/
def Segment.syntax_kind : Segment → SyntaxKind
  | .token _ k _ _ => k
  | .node _ k _ _ _ => k

/-- `ErasedSegment::get_position_marker`. -/
def Segment.position_marker : Segment → Option PositionMarker
  | .token _ _ m _ => m
  | .node _ _ m _ _ => m

/-- `ErasedSegment::segments` (`base.rs:139-144`): children of a node, empty
for a token. -/
def Segment.segments : Segment → List Segment
  | .token _ _ _ _ => []
  | .node _ _ _ _ cs => cs

/-- `NodeOrToken::set_position_marker` (`base.rs:1019-1021`). -/
def Segment.set_position_marker : Segment → Option PositionMarker → Segment
  | .token i k _ r, m => .token i k m r
  | .node i k _ d cs, m => .node i k m d cs

mutual

/-- `ErasedSegment::raw` (`base.rs:129-137`): a token's raw text, or the
concatenation of the children's raw text. -/
def Segment.raw : Segment → String
  | .token _ _ _ r => r
  | .node _ _ _ _ cs => rawList cs

/-- Concatenated raw text of a list of segments. -/
def rawList : List Segment → String
  | [] => ""
  | c :: cs => Segment.raw c ++ rawList cs

end

mutual

/-- `ErasedSegment::get_raw_segments` (`base.rs:170-172`): all descendants
with no children, in traversal order (a childless segment yields itself). -/
def Segment.get_raw_segments (s : Segment) : List Segment :=
  match s with
  | .token _ _ _ _ => [s]
  | .node _ _ _ _ cs => if cs.isEmpty then [s] else rawSegmentsList cs

/-- Raw segments of a list of segments, in order. -/
def rawSegmentsList : List Segment → List Segment
  | [] => []
  | c :: cs => Segment.get_raw_segments c ++ rawSegmentsList cs

end

/-- Modelled from the spec: the indent/dedent marker kind carried by a pending
meta-segment insertion (`IndentChange`; meta.rs under `src/` declares the
meta segments but not this enum). -/
inductive IndentChange where
  | indent
  | dedent
  | implicit
deriving DecidableEq, Repr

/-- `Span` (`match_result.rs:204-208`): a half-open token-index range
(`end` is a Lean keyword, so the upper bound is called `stop`). -/
structure Span where
  start : Nat
  stop : Nat
deriving DecidableEq, Repr

/-- `Matched` (`match_result.rs:24-29`). -/
inductive Matched where
  | syntaxKind (kind : SyntaxKind)
  | erasedSegment (segment : Segment)
  | bracketedSegment (start_bracket : Nat) (end_bracket : Nat)

/-- `MatchResult` (`match_result.rs:31-37`). -/
inductive MatchResult where
  | mk (span : Span) (matched : Option Matched)
      (insert_segments : List (Nat × IndentChange)) (child_matches : List MatchResult)

/-- Projection: the matched span. -/
def MatchResult.span : MatchResult → Span
  | .mk s _ _ _ => s

/-- Projection: the optional matched tag. -/
def MatchResult.matched : MatchResult → Option Matched
  | .mk _ m _ _ => m

/-- Projection: the pending meta-segment insertions. -/
def MatchResult.insert_segments : MatchResult → List (Nat × IndentChange)
  | .mk _ _ i _ => i

/-- Projection: the child match results. -/
def MatchResult.child_matches : MatchResult → List MatchResult
  | .mk _ _ _ c => c

/-- `MatchResult::from_span` (`match_result.rs:40-42`): a plain span with
default (`None`/empty) remaining fields. -/
def MatchResult.from_span (start stop : Nat) : MatchResult :=
  .mk ⟨start, stop⟩ none [] []

/-- `MatchResult::empty_at` (`match_result.rs:44-46`). -/
def MatchResult.empty_at (idx : Nat) : MatchResult :=
  MatchResult.from_span idx idx

/-- `MatchResult::len` (`match_result.rs:48-50`). -/
def MatchResult.len (m : MatchResult) : Nat :=
  m.span.stop - m.span.start

/-- `MatchResult::has_match` (`match_result.rs:57-59`). -/
def MatchResult.has_match (m : MatchResult) : Bool :=
  decide (0 < m.len) || !m.insert_segments.isEmpty

/-- `MatchResult::is_empty` (`match_result.rs:52-54`). -/
def MatchResult.is_empty (m : MatchResult) : Bool :=
  !m.has_match

/-- `MatchResult::append` (`match_result.rs:65-89`): drop an empty operand;
otherwise span the two operands, flattening the insertions and children of
untagged operands and keeping tagged operands as children.  The
`for matched in [self, other]` loop is rendered as two accumulation steps. -/
def MatchResult.append (self other : MatchResult) : MatchResult :=
  if self.is_empty then other
  else if other.is_empty then self
  else
    let new_span : Span := ⟨self.span.start, other.span.stop⟩
    let step := fun (acc : List (Nat × IndentChange) × List MatchResult) (m : MatchResult) =>
      if m.matched.isSome then (acc.1, acc.2 ++ [m])
      else (acc.1 ++ m.insert_segments, acc.2 ++ m.child_matches)
    let acc := step (step ([], []) self) other
    .mk new_span none acc.1 acc.2

/-- The insertions contributed by one operand of `append`: an untagged
operand is flattened, a tagged operand keeps its insertions inside itself. -/
def flattenInserts (m : MatchResult) : List (Nat × IndentChange) :=
  if m.matched.isSome then [] else m.insert_segments

/-- The children contributed by one operand of `append`: a tagged operand
becomes a single child, an untagged operand is flattened. -/
def flattenChildren (m : MatchResult) : List MatchResult :=
  if m.matched.isSome then [m] else m.child_matches

/-- First operand of the C6 counterexample: a tagged zero-length result with
one pending insertion (as produced by `wrap` on a point match holding only
an indent). -/
def c6a : MatchResult := .mk ⟨0, 0⟩ (some (.syntaxKind 0)) [(0, .indent)] []

/-- Second operand of the C6 counterexample. -/
def c6b : MatchResult := .mk ⟨0, 0⟩ (some (.syntaxKind 1)) [(0, .dedent)] []

/-- Third operand of the C6 counterexample: a plain one-token span. -/
def c6c : MatchResult := MatchResult.from_span 0 1

/-- `EditType` (`rules/base.rs:104-109`). -/
inductive EditType where
  | createBefore
  | createAfter
  | replace
  | delete
deriving DecidableEq, Repr

/-- `LintFix` (`rules/base.rs:130-135`). -/
structure LintFix where
  edit_type : EditType
  anchor : Segment
  edit : Option (List Segment)
  source : List Segment

/-- Modelled from the spec: `AnchorEditInfo` (segments/fix.rs is not under
`src/`): the per-anchor aggregation of the deduplicated fixes targeting one
anchor id; `apply_fixes` consumes only the fix list. -/
structure AnchorEditInfo where
  fixes : List LintFix

/-- The fix map passed to `apply_fixes`: `FxHashMap<u32, AnchorEditInfo>`
modelled as an association list keyed by anchor id (the function only ever
removes entries by key). -/
abbrev FixMap := List (Nat × AnchorEditInfo)

/-- `HashMap::remove`: take the entry with the given key out of the map,
returning it together with the remaining map. -/
def removeFix : FixMap → Nat → Option (AnchorEditInfo × FixMap)
  | [], _ => none
  | (k, v) :: rest, i =>
      if k = i then some (v, rest)
      else
        match removeFix rest i with
        | some (vi, m) => some (vi, (k, v) :: m)
        | none => none

/-- The edit-splice loop of `apply_fixes` (`base.rs:782-791`): deep-clone each
edit segment (value identity here) and, for a Replace fix, move the anchor's
position marker onto the first clone whose raw text equals the anchor's raw
text (`consumed_pos` guards a single transfer). -/
def spliceEdits (edit_type : EditType) (seg : Segment) :
    List Segment → Bool → List Segment
  | [], _ => []
  | s :: rest, consumed_pos =>
      if edit_type = EditType.replace ∧ consumed_pos = false ∧ s.raw = seg.raw then
        s.set_position_marker seg.position_marker :: spliceEdits edit_type seg rest true
      else
        s :: spliceEdits edit_type seg rest consumed_pos

/-- The per-anchor body of the `apply_fixes` child loop (`base.rs:750-804`):
reverse a CreateAfter/CreateBefore pair, then for each fix: drop the anchor
on Delete; on a lone CreateAfter push the anchor before the edit; splice the
edit segments; on CreateBefore push the anchor after the edit.  Returns the
segments contributed to the rebuilt child list and the fixes applied.
(The source unwraps `f.edit` for non-Delete fixes; the `LintFix`
constructors always populate it, modelled with `getD []`.  The dead
`_requires_validate` bookkeeping is not tracked: the function's final result
hardcodes `false` for the validated flag.) -/
def anchorContribution (seg : Segment) (anchor_info : AnchorEditInfo) :
    List Segment × List LintFix :=
  let fixes :=
    match anchor_info.fixes with
    | [f0, f1] => if f0.edit_type = EditType.createAfter then [f1, f0] else [f0, f1]
    | other => other
  let fixes_count := fixes.length
  fixes.foldl
    (fun (acc : List Segment × List LintFix) (f : LintFix) =>
      let buf := acc.1
      let applied := acc.2 ++ [f]
      if f.edit_type = EditType.delete then (buf, applied)
      else
        let buf :=
          if f.edit_type = EditType.createAfter ∧ fixes_count = 1 then buf ++ [seg] else buf
        let buf := buf ++ spliceEdits f.edit_type seg (f.edit.getD []) false
        let buf := if f.edit_type = EditType.createBefore then buf ++ [seg] else buf
        (buf, applied))
    ([], [])

/-- The child-rebuild loop of `apply_fixes` (`base.rs:741-805`): for each
direct child, keep it unchanged when no fix targets its id, otherwise
remove its entry from the fix map and splice in the anchor contribution.
Returns the rebuilt child list, the applied fixes and the remaining map. -/
def applyFixesLoop : FixMap → List Segment → (List Segment × List LintFix × FixMap)
  | fixes, [] => ([], [], fixes)
  | fixes, seg :: rest =>
      match removeFix fixes seg.id with
      | none =>
          let st := applyFixesLoop fixes rest
          (seg :: st.1, st.2.1, st.2.2)
      | some (anchor_info, fixes') =>
          let contrib := anchorContribution seg anchor_info
          let st := applyFixesLoop fixes' rest
          (contrib.1 ++ st.1, contrib.2 ++ st.2.1, st.2.2)

/-- Modelled from the spec: collapse a marker to its start coordinates
(`PositionMarker::start_point_marker`; markers.rs is not under `src/`). -/
def PositionMarker.start_point_marker (p : PositionMarker) : PositionMarker :=
  ⟨⟨p.source_slice.start, p.source_slice.start⟩,
   ⟨p.templated_slice.start, p.templated_slice.start⟩,
   p.working_line_no, p.working_line_pos⟩

/-- Modelled from the spec: collapse a marker to its end coordinates
(`PositionMarker::end_point_marker`). -/
def PositionMarker.end_point_marker (p : PositionMarker) : PositionMarker :=
  ⟨⟨p.source_slice.stop, p.source_slice.stop⟩,
   ⟨p.templated_slice.stop, p.templated_slice.stop⟩,
   p.working_line_no, p.working_line_pos⟩

/-- Modelled from the spec: the marker spanning from one point marker to
another (`PositionMarker::from_points`). -/
def PositionMarker.from_points (p1 p2 : PositionMarker) : PositionMarker :=
  ⟨⟨p1.source_slice.start, p2.source_slice.start⟩,
   ⟨p1.templated_slice.start, p2.templated_slice.start⟩,
   p1.working_line_no, p1.working_line_pos⟩

/-- Modelled from the spec: replace the working line/column coordinates
(`PositionMarker::with_working_position`). -/
def PositionMarker.with_working_position (p : PositionMarker) (line pos : Nat) :
    PositionMarker :=
  { p with working_line_no := line, working_line_pos := pos }

/-- Modelled from the spec: advance a working line/column over a raw text
(`PositionMarker::infer_next_position`): a newline starts the next line at
column 1, any other character advances the column. -/
def inferNextChars : List Char → Nat → Nat → (Nat × Nat)
  | [], line, pos => (line, pos)
  | c :: rest, line, pos =>
      if c = '\n' then inferNextChars rest (line + 1) 1
      else inferNextChars rest line (pos + 1)

/-- `PositionMarker::infer_next_position` on a string. -/
def PositionMarker.infer_next_position (raw : String) (line pos : Nat) : Nat × Nat :=
  inferNextChars raw.data line pos

/-- Default marker used where the source unwraps an `Option<PositionMarker>`
that is always populated on the paths taken. -/
def defaultPositionMarker : PositionMarker := ⟨⟨0, 0⟩, ⟨0, 0⟩, 1, 1⟩

/-- `Option::unwrap` on a segment's position marker (always populated at the
call sites modelled here). -/
def unwrapMarker (s : Segment) : PositionMarker :=
  s.position_marker.getD defaultPositionMarker

/-- `ErasedSegment::change_segments` (`base.rs:229-249`): replace a node's
children, clearing the position marker; the source marks the token case
unreachable (`unimplemented!`), modelled as the identity. -/
def Segment.change_segments : Segment → List Segment → Segment
  | .node i k _ d _, cs => .node i k none d cs
  | .token i k m r, _ => .token i k m r

/-- `ErasedSegment::new` (`base.rs:218-227`): a node is rebuilt with the same
id, kind, dialect and position but the given children; a token is
deep-cloned unchanged (the children argument is ignored). -/
def Segment.new (self : Segment) (segments : List Segment) : Segment :=
  match self with
  | .node i k m d _ => .node i k m d segments
  | .token i k m r => .token i k m r

mutual

/-- `position_segments` (`base.rs:934-1001`), fuelled: `none` means the fuel
ran out (the source recursion always terminates on finite trees). -/
def positionSegments (fuel : Nat) (segments : List Segment)
    (parent_pos : PositionMarker) : Option (List Segment) :=
  match fuel with
  | 0 => none
  | fuel + 1 =>
      if segments.isEmpty then some []
      else
        positionLoop fuel segments parent_pos [] parent_pos.working_line_no
          parent_pos.working_line_pos

/-- The `for (idx, segment)` loop of `position_segments`: `rest` is the tail
still to process, `buffer` the already-repositioned prefix.  A segment
without a marker is positioned between the end point of the previous new
segment (or the parent start point) and the start point of the first raw
segment of the next marker-carrying segment; working coordinates advance
over every segment's raw text. -/
def positionLoop (fuel : Nat) (rest : List Segment) (parent_pos : PositionMarker)
    (buffer : List Segment) (line_no line_pos : Nat) : Option (List Segment) :=
  match fuel with
  | 0 => none
  | fuel + 1 =>
      match rest with
      | [] => some buffer
      | segment :: rest' =>
          let old_position := segment.position_marker
          let start_point :=
            match buffer.getLast? with
            | some prev => some (unwrapMarker prev).end_point_marker
            | none => some parent_pos.start_point_marker
          let end_point :=
            match rest'.find? (fun fwd => fwd.position_marker.isSome) with
            | some fwd =>
                some (unwrapMarker ((fwd.get_raw_segments).headD fwd)).start_point_marker
            | none => none
          let new_position :=
            match old_position with
            | some pm => pm
            | none =>
                match start_point, end_point with
                | some sp, some ep => if sp ≠ ep then .from_points sp ep else sp
                | some sp, none => sp
                | none, some ep => ep
                | none, none => defaultPositionMarker
          let new_position := new_position.with_working_position line_no line_pos
          let next := PositionMarker.infer_next_position segment.raw line_no line_pos
          do
            let new_seg ←
              if segment.segments.isEmpty = false ∧ old_position ≠ some new_position then do
                let cs ← positionSegments fuel segment.segments new_position
                pure (segment.change_segments cs)
              else pure segment
            positionLoop fuel rest' parent_pos
              (buffer ++ [new_seg.set_position_marker (some new_position)]) next.1 next.2

end

mutual

/-- `ErasedSegment::apply_fixes` (`base.rs:729-830`), fuelled (`none` means
the fuel ran out; the source recursion terminates because trees and the
fix map are finite).  With an empty fix map or a childless segment the
input is returned unchanged with `validated = true`; otherwise the child
list is rebuilt, repositioned when fixes were applied, recursed into with
the remaining map, repositioned again, and wrapped via `Segment.new` with
`validated = false`.  The threaded fix map is returned alongside, modelling
the `&mut` parameter; the two middle components are the always-empty
`before`/`after` lists of the source. -/
def applyFixes (fuel : Nat) (self : Segment) (fixes : FixMap) :
    Option (Segment × List Segment × List Segment × Bool × FixMap) :=
  if fixes.isEmpty || self.segments.isEmpty then
    some (self, [], [], true, fixes)
  else
    match fuel with
    | 0 => none
    | fuel + 1 => do
        let st := applyFixesLoop fixes self.segments
        let seg_buffer := st.1
        let fixes_applied := st.2.1
        let fixes₁ := st.2.2
        let seg_buffer ←
          if fixes_applied.isEmpty then some seg_buffer
          else positionSegments fuel seg_buffer (unwrapMarker self)
        let st₂ ← applyFixesSecondLoop fuel seg_buffer fixes₁
        let seg_buffer₂ ← positionSegments fuel st₂.1 (unwrapMarker self)
        some (self.new seg_buffer₂, [], [], false, st₂.2)

/-- The second loop of `apply_fixes` (`base.rs:812-825`): recurse into every
segment of the rebuilt buffer with the remaining fix map, splicing
`pre ++ [s] ++ post` for each result. -/
def applyFixesSecondLoop (fuel : Nat) (segs : List Segment) (fixes : FixMap) :
    Option (List Segment × FixMap) :=
  match fuel with
  | 0 => none
  | fuel + 1 =>
      match segs with
      | [] => some ([], fixes)
      | seg :: rest => do
          let r ← applyFixes fuel seg fixes
          let rrest ← applyFixesSecondLoop fuel rest r.2.2.2.2
          some (r.2.1 ++ [r.1] ++ r.2.2.1 ++ rrest.1, rrest.2)

end

/-- `DialectElementType` (core/parser/types.rs is not under `src/`): a
grammar-table entry is either a resolved matchable or a segment generator;
`Dialect::ref` and `Dialect::extend` inspect only the variant, so the trait
object payloads are represented by discriminants. -/
inductive DialectElementType where
  | matchable (m : Nat)
  | segmentGenerator (g : Nat)
deriving DecidableEq, Repr

/-- `Dialect` (`src/core/dialects/base.rs:16-24`), reduced to the fields
consumed by `ref`/`extend`/`check_unique_names`: the root segment name and
the grammar library.  The `HashMap` library is an association list here
(`check_unique_names` keeps its keys unique, so `get` is first-match
lookup). -/
structure Dialect where
  root_segment_name : String
  library : List (String × DialectElementType)

/-- `HashMap::get` on the grammar library. -/
def lookupElem : List (String × DialectElementType) → String → Option DialectElementType
  | [], _ => none
  | (k, v) :: rest, name => if k = name then some v else lookupElem rest name

/-- The `keyword_tip` text of `Dialect::ref` (`base.rs:129-135`). -/
def keywordTip : String :=
  "\n\nThe syntax in the query is not (yet?) supported. Try to narrow down your query to a minimal, reproducible case and raise an issue on GitHub.\n\nOr, even better, see this guide on how to help contribute keyword and/or dialect updates:\nhttps://github.com/quarylabs/sqruff"

/-- The panic message of `Dialect::ref` for a missing plain name
(`base.rs:140`). -/
def refMissingMsg (name : String) : String :=
  "Grammar refers to \x27" ++ name ++ "\x27 which was not found in the dialect."

/-- The panic message of `Dialect::ref` for a missing `…KeywordSegment` name
(`base.rs:136-138`): it names the stripped keyword, not the full name. -/
def refKeywordMsg (keyword : String) : String :=
  "Grammar refers to the \x27" ++ keyword ++ "\x27 keyword which was not found in the dialect."
    ++ keywordTip

/-- The panic message of `Dialect::ref` for a name registered as a
generator (`base.rs:125`). -/
def unexpectedGeneratorMsg (name : String) : String :=
  "Unexpected SegmentGenerator while fetching \x27" ++ name ++ "\x27"

/-- The panic message of `check_unique_names` for a name duplicated within
one registration batch (`base.rs:195-198`). -/
def extendRegisteredMsg (name : String) : String :=
  "ERROR: the name " ++ name ++ " is already registered."

/-- The panic message of `check_unique_names` for a name already present in
the library (`base.rs:200-204`). -/
def extendRepeatedMsg (name : String) : String :=
  "ERROR: the name \x27" ++ name ++ "\x27 is repeated."

/-- Rust `str::strip_suffix("KeywordSegment")` (14 characters), via the
character list. -/
def stripKeywordSegmentSuffix (name : String) : Option String :=
  if "KeywordSegment".data.isSuffixOf name.data then
    some (String.mk (name.data.take (name.data.length - 14)))
  else none

/-- `Dialect::ref` (`base.rs:116-144`): fetch a grammar element by name; a
missing or generator-valued name aborts construction (panic, modelled as
`Except.error` carrying the panic message). -/
def Dialect.ref (self : Dialect) (name : String) : Except String Nat :=
  match lookupElem self.library name with
  | some (DialectElementType.matchable m) => .ok m
  | some (DialectElementType.segmentGenerator _) => .error (unexpectedGeneratorMsg name)
  | none =>
      match stripKeywordSegmentSuffix name with
      | some keyword => .error (refKeywordMsg keyword)
      | none => .error (refMissingMsg name)

/-- The loop of `check_unique_names` (`base.rs:191-206`), threading the
`names` batch set (insertion order preserved; `HashSet::insert` returning
false is the batch-duplicate check, probed before the library check). -/
def checkUniqueNamesLoop (dialect : Dialect) :
    List (String × DialectElementType) → List String → Except String Unit
  | [], _ => .ok ()
  | (name, _) :: rest, names =>
      if names.contains name then .error (extendRegisteredMsg name)
      else if (lookupElem dialect.library name).isSome then .error (extendRepeatedMsg name)
      else checkUniqueNamesLoop dialect rest (names ++ [name])

/-- `check_unique_names` (`base.rs:191-206`). -/
def check_unique_names (dialect : Dialect) (xs : List (String × DialectElementType)) :
    Except String Unit :=
  checkUniqueNamesLoop dialect xs []

/-- `Dialect::extend` (`base.rs:33-40`): validate the batch, then extend the
library; a failed validation aborts construction before any mutation. -/
def Dialect.extend (self : Dialect) (xs : List (String × DialectElementType)) :
    Except String Dialect :=
  match check_unique_names self xs with
  | .error e => .error e
  | .ok _ => .ok { self with library := self.library ++ xs }

/-- Naive substring search on character lists: does `hay` contain `pat`
contiguously? -/
def listContainsSub (pat : List Char) (hay : List Char) : Bool :=
  pat.isPrefixOf hay ||
    match hay with
    | [] => false
    | _ :: rest => listContainsSub pat rest

/-- Substring containment on strings. -/
def strContainsSub (hay pat : String) : Bool :=
  listContainsSub pat.data hay.data

/-- `LintResult` (`rules/base.rs:22-30`); the memory map payload is modelled
as an association list. -/
structure LintResult where
  anchor : Option Segment
  fixes : List LintFix
  memory : Option (List (String × String))
  description : Option String
  source : String

/-- Modelled from the spec: `SQLLintError` (core/errors.rs is not under
`src/`): a lint error carrying its description and the segment it points at
(`SQLLintError::new(description, segment)`). -/
structure SQLLintError where
  description : String
  segment : Segment

/-- Modelled from the spec: the crawl context handed to a rule's `eval`
(rules/context.rs is not under `src/`); the crawl loop verified here treats
it opaquely. -/
structure RuleContext where
  segment : Segment

/-- The lint-error message produced when a rule's `eval` panics during a
crawl (`rules/base.rs:450`). -/
def crawlPanicMsg : String :=
  "Unexpected exception. Could you open an issue at https://github.com/quarylabs/sqruff"

/-- The `for elem in resp` loop of `Rule::crawl` (`rules/base.rs:461-463`):
process every lint result of one successful `eval`, concatenating the
produced errors and fixes (`process_lint_result` is a parameter: its
template-conflict filtering is independent of the panic containment
verified here). -/
def processAll (processFn : LintResult → List SQLLintError × List LintFix) :
    List LintResult → List SQLLintError × List LintFix
  | [] => ([], [])
  | r :: rest =>
      let x := processFn r
      let y := processAll processFn rest
      (x.1 ++ y.1, x.2 ++ y.2)

/-- The context loop of `Rule::crawl` (`rules/base.rs:443-469`): evaluate the
rule on each crawl context; a panic (`Except.error`, the
`catch_unwind … Err` arm) appends exactly one lint error anchored at the
crawled tree and returns the results collected so far. -/
def crawlLoop (tree : Segment) (evalFn : RuleContext → Except Unit (List LintResult))
    (processFn : LintResult → List SQLLintError × List LintFix) :
    List RuleContext → List SQLLintError → List LintFix →
      (List SQLLintError × List LintFix)
  | [], vs, fixes => (vs, fixes)
  | cx :: rest, vs, fixes =>
      match evalFn cx with
      | .error _ => (vs ++ [⟨crawlPanicMsg, tree⟩], fixes)
      | .ok resp =>
          let nw := processAll processFn resp
          crawlLoop tree evalFn processFn rest (vs ++ nw.1) (fixes ++ nw.2)

/-- `Rule::crawl` (`rules/base.rs:413-472`): short-circuit when the dialect
is skipped, otherwise run the context loop with empty accumulators.  The
crawl-context sequence produced by `crawl_behaviour` and the rule's `eval`
are parameters. -/
def crawl (dialect_skipped : Bool) (tree : Segment) (contexts : List RuleContext)
    (evalFn : RuleContext → Except Unit (List LintResult))
    (processFn : LintResult → List SQLLintError × List LintFix) :
    List SQLLintError × List LintFix :=
  if dialect_skipped then ([], [])
  else crawlLoop tree evalFn processFn contexts [] []

theorem lookupPatch_eq_none (patches : List FixPatch) (sl : RangeN)
    (h : ∀ p ∈ patches, p.source_slice ≠ sl) : lookupPatch patches sl = none := by
  induction patches with
  | nil => rfl
  | cons p rest ih =>
      have hp : p.source_slice ≠ sl := h p (List.mem_cons_self ..)
      simp only [lookupPatch, if_neg hp]
      exact ih fun q hq => h q (List.mem_cons_of_mem _ hq)

theorem lookupPatch_append (xs ys : List FixPatch) (sl : RangeN) :
    lookupPatch (xs ++ ys) sl =
      (match lookupPatch xs sl with
       | some v => some v
       | none => lookupPatch ys sl) := by
  induction xs with
  | nil => rfl
  | cons p rest ih =>
      by_cases hp : p.source_slice = sl
      · simp [lookupPatch, hp]
      · simp only [List.cons_append, lookupPatch, if_neg hp]
        exact ih

theorem lookupPatch_first (pre post : List FixPatch) (p : FixPatch) (sl : RangeN)
    (hpre : ∀ q ∈ pre, q.source_slice ≠ sl) (hp : p.source_slice = sl) :
    lookupPatch (pre ++ p :: post) sl = some p.fixed_raw := by
  rw [lookupPatch_append, lookupPatch_eq_none pre sl hpre]
  simp [lookupPatch, hp]

theorem lookupPatch_filter_ne (l : List FixPatch) (r sl : RangeN) (h : sl ≠ r) :
    lookupPatch (l.filter fun q => q.source_slice != r) sl = lookupPatch l sl := by
  induction l with
  | nil => rfl
  | cons p rest ih =>
      by_cases hp : p.source_slice = r
      · have hne : p.source_slice ≠ sl := fun hc => h (hc ▸ hp)
        rw [List.filter_cons_of_neg (by simp [hp]), ih, lookupPatch, if_neg hne]
      · rw [List.filter_cons_of_pos (by simp [hp]), lookupPatch, lookupPatch]
        by_cases hsl : p.source_slice = sl
        · rw [if_pos hsl, if_pos hsl]
        · rw [if_neg hsl, if_neg hsl, ih]

theorem string_append_assoc (a b c : String) : a ++ b ++ c = a ++ (b ++ c) := by
  cases a with
  | mk da =>
      cases b with
      | mk db =>
          cases c with
          | mk dc =>
              show String.mk (da ++ db ++ dc) = String.mk (da ++ (db ++ dc))
              rw [List.append_assoc]

theorem string_empty_append (a : String) : "" ++ a = a := by
  cases a with
  | mk d => rfl

theorem string_append_empty (a : String) : a ++ "" = a := by
  cases a with
  | mk d =>
      show String.mk (d ++ []) = String.mk d
      rw [List.append_nil]

theorem string_foldl_append (l : List String) (a : String) :
    l.foldl (· ++ ·) a = a ++ l.foldl (· ++ ·) "" := by
  induction l generalizing a with
  | nil => exact (string_append_empty a).symm
  | cons s rest ih =>
      show rest.foldl (· ++ ·) (a ++ s) = a ++ rest.foldl (· ++ ·) ("" ++ s)
      rw [ih (a ++ s), ih ("" ++ s), string_empty_append, string_append_assoc]

theorem string_join_cons (s : String) (l : List String) :
    String.join (s :: l) = s ++ String.join l := by
  show l.foldl (· ++ ·) ("" ++ s) = s ++ l.foldl (· ++ ·) ""
  rw [string_empty_append, string_foldl_append]

theorem buildUp_cons (sl : RangeN) (rest : List RangeN) (patches : List FixPatch)
    (raw : String) :
    buildUpFixedSourceString (sl :: rest) patches raw =
      (match lookupPatch patches sl with
       | some fixed => fixed
       | none => sliceStr raw sl) ++ buildUpFixedSourceString rest patches raw := rfl

theorem buildUp_append_split (xs ys : List RangeN) (patches : List FixPatch)
    (raw : String) :
    buildUpFixedSourceString (xs ++ ys) patches raw =
      buildUpFixedSourceString xs patches raw ++ buildUpFixedSourceString ys patches raw := by
  induction xs with
  | nil =>
      show buildUpFixedSourceString ys patches raw =
        "" ++ buildUpFixedSourceString ys patches raw
      cases buildUpFixedSourceString ys patches raw with
      | mk d => rfl
  | cons sl rest ih =>
      simp only [List.cons_append, buildUp_cons, ih, string_append_assoc]

/-- C2: every slice of the buffer that equals no patch source_slice is emitted
by `build_up_fixed_source_string` as the byte-identical substring of the
original source, in place; hence for a source byte inside such a slice the
corresponding emitted byte equals the input byte at that source position. -/
theorem buildUp_untouched_slice (pre post : List RangeN) (sl : RangeN)
    (patches : List FixPatch) (raw : String)
    (h : ∀ p ∈ patches, p.source_slice ≠ sl) :
    buildUpFixedSourceString (pre ++ sl :: post) patches raw
      = buildUpFixedSourceString pre patches raw ++ sliceStr raw sl
          ++ buildUpFixedSourceString post patches raw
    ∧ ∀ i, sl.start ≤ i → i < sl.stop →
        (sliceStr raw sl).data.get? (i - sl.start) = raw.data.get? i := by
  constructor
  · rw [buildUp_append_split, buildUp_cons, lookupPatch_eq_none patches sl h,
      string_append_assoc]
  · intro i hle hlt
    show (((raw.data.drop sl.start).take (sl.stop - sl.start)).get? (i - sl.start))
      = raw.data.get? i
    rw [List.get?_eq_getElem?, List.get?_eq_getElem?, List.getElem?_take_of_lt (by omega),
      List.getElem?_drop]
    congr 1
    omega

/-- Helper for C2 witness: a concrete evaluation of the untouched-slice
emission. -/
theorem buildUp_untouched_slice_witness :
    (∀ p ∈ [(⟨⟨1, 2⟩, "d", "", ⟨1, 2⟩, "b", "b"⟩ : FixPatch)],
        p.source_slice ≠ (⟨2, 3⟩ : RangeN)) ∧
    buildUpFixedSourceString ([⟨0, 1⟩, ⟨1, 2⟩] ++ ⟨2, 3⟩ :: []) [⟨⟨1, 2⟩, "d", "", ⟨1, 2⟩, "b", "b"⟩] "abc"
      = buildUpFixedSourceString [⟨0, 1⟩, ⟨1, 2⟩] [⟨⟨1, 2⟩, "d", "", ⟨1, 2⟩, "b", "b"⟩] "abc"
          ++ sliceStr "abc" ⟨2, 3⟩
          ++ buildUpFixedSourceString [] [⟨⟨1, 2⟩, "d", "", ⟨1, 2⟩, "b", "b"⟩] "abc" := by
  refine ⟨by decide, ?_⟩
  exact (buildUp_untouched_slice [⟨0, 1⟩, ⟨1, 2⟩] [] ⟨2, 3⟩ _ "abc" (by decide)).1

/-- C10: patch lookup per slice is first-match-wins.  With the patch list
`pre ++ p :: post` where no patch of `pre` carries `p.source_slice`, every
occurrence of that slice in the slice buffer is rendered as `p.fixed_raw`
(first conjunct: the whole output, slice by slice), and dropping every later
patch with that same source_slice leaves the output unchanged (second
conjunct: later duplicates are never emitted). -/
theorem buildUp_first_match_wins (slices : List RangeN) (pre post : List FixPatch)
    (p : FixPatch) (raw : String)
    (hpre : ∀ q ∈ pre, q.source_slice ≠ p.source_slice) :
    buildUpFixedSourceString slices (pre ++ p :: post) raw
      = String.join (slices.map fun sl =>
          if sl = p.source_slice then p.fixed_raw
          else
            match lookupPatch (pre ++ p :: post) sl with
            | some fixed => fixed
            | none => sliceStr raw sl)
    ∧ buildUpFixedSourceString slices (pre ++ p :: post) raw
      = buildUpFixedSourceString slices
          (pre ++ p :: post.filter fun q => q.source_slice != p.source_slice) raw := by
  have hlook : ∀ sl : RangeN,
      lookupPatch (pre ++ p :: post) sl =
        lookupPatch (pre ++ p :: post.filter fun q => q.source_slice != p.source_slice) sl := by
    intro sl
    rw [lookupPatch_append, lookupPatch_append]
    cases lookupPatch pre sl with
    | some v => rfl
    | none =>
        by_cases hp : p.source_slice = sl
        · simp [lookupPatch, hp]
        · simp only [lookupPatch, if_neg hp]
          exact (lookupPatch_filter_ne post p.source_slice sl fun hc => hp hc.symm).symm
  constructor
  · induction slices with
    | nil => rfl
    | cons sl rest ih =>
        rw [buildUp_cons, List.map_cons, string_join_cons, ih]
        by_cases hsl : sl = p.source_slice
        · rw [lookupPatch_first pre post p sl (fun q hq => hsl ▸ hpre q hq) (hsl ▸ rfl),
            if_pos hsl]
        · rw [if_neg hsl]
  · induction slices with
    | nil => rfl
    | cons sl rest ih =>
        rw [buildUp_cons, buildUp_cons, ih, hlook sl]

/-- C10 instantiated: two patches with the same source_slice 1..2 and
different replacement texts; dropping the later duplicate leaves the output
unchanged. -/
theorem buildUp_first_match_wins_witness :
    buildUpFixedSourceString [⟨0, 1⟩, ⟨1, 2⟩, ⟨2, 3⟩]
        ([] ++ (⟨⟨1, 2⟩, "d", "", ⟨1, 2⟩, "b", "b"⟩ : FixPatch) ::
          [⟨⟨1, 2⟩, "X", "", ⟨1, 2⟩, "b", "b"⟩]) "abc"
      = buildUpFixedSourceString [⟨0, 1⟩, ⟨1, 2⟩, ⟨2, 3⟩]
          ([] ++ (⟨⟨1, 2⟩, "d", "", ⟨1, 2⟩, "b", "b"⟩ : FixPatch) ::
            ([(⟨⟨1, 2⟩, "X", "", ⟨1, 2⟩, "b", "b"⟩ : FixPatch)].filter fun q =>
              q.source_slice != (⟨⟨1, 2⟩, "d", "", ⟨1, 2⟩, "b", "b"⟩ : FixPatch).source_slice))
          "abc" :=
  (buildUp_first_match_wins [⟨0, 1⟩, ⟨1, 2⟩, ⟨2, 3⟩] []
    [⟨⟨1, 2⟩, "X", "", ⟨1, 2⟩, "b", "b"⟩] ⟨⟨1, 2⟩, "d", "", ⟨1, 2⟩, "b", "b"⟩ "abc"
    (by simp)).2

/-- C4: on source "a{# b #}cc" with the comment source-only slice "{# b #}" at
byte 1 and a single patch replacing source range 8..9 by " c", the slice
buffer is exactly [0..1, 1..8, 8..9, 9..10]: the comment boundary stays a
slice of its own and is not merged into the adjacent edit. -/
theorem slice_source_comment_boundary :
    sliceSourceFileUsingPatches
      [⟨⟨1, 2⟩, " c", "", ⟨8, 9⟩, "c", "c"⟩]
      [⟨"\x7b# b #\x7d", "comment", 1⟩]
      "a\x7b# b #\x7dcc"
      = [⟨0, 1⟩, ⟨1, 8⟩, ⟨8, 9⟩, ⟨9, 10⟩] := by
  rfl

@[simp] theorem span_mk (s : Span) (m : Option Matched)
    (i : List (Nat × IndentChange)) (c : List MatchResult) :
    (MatchResult.mk s m i c).span = s := rfl

@[simp] theorem matched_mk (s : Span) (m : Option Matched)
    (i : List (Nat × IndentChange)) (c : List MatchResult) :
    (MatchResult.mk s m i c).matched = m := rfl

@[simp] theorem insert_segments_mk (s : Span) (m : Option Matched)
    (i : List (Nat × IndentChange)) (c : List MatchResult) :
    (MatchResult.mk s m i c).insert_segments = i := rfl

@[simp] theorem child_matches_mk (s : Span) (m : Option Matched)
    (i : List (Nat × IndentChange)) (c : List MatchResult) :
    (MatchResult.mk s m i c).child_matches = c := rfl

theorem len_eq (m : MatchResult) : m.len = m.span.stop - m.span.start := rfl

theorem append_of_empty_left (a b : MatchResult) (h : a.is_empty = true) :
    a.append b = b := by
  unfold MatchResult.append
  rw [if_pos h]

theorem append_of_empty_right (a b : MatchResult) (ha : a.is_empty = false)
    (hb : b.is_empty = true) : a.append b = a := by
  unfold MatchResult.append
  rw [if_neg (by simp [ha]), if_pos hb]

theorem append_of_nonempty (a b : MatchResult) (ha : a.is_empty = false)
    (hb : b.is_empty = false) :
    a.append b = .mk ⟨a.span.start, b.span.stop⟩ none
      (flattenInserts a ++ flattenInserts b) (flattenChildren a ++ flattenChildren b) := by
  unfold MatchResult.append
  rw [if_neg (by simp [ha]), if_neg (by simp [hb])]
  by_cases hma : a.matched.isSome
  · by_cases hmb : b.matched.isSome
    · simp [hma, hmb, flattenInserts, flattenChildren]
    · simp [hma, hmb, flattenInserts, flattenChildren]
  · by_cases hmb : b.matched.isSome
    · simp [hma, hmb, flattenInserts, flattenChildren]
    · simp [hma, hmb, flattenInserts, flattenChildren]

theorem is_empty_true_iff (m : MatchResult) :
    m.is_empty = true ↔ (m.len = 0 ∧ m.insert_segments = []) := by
  simp [MatchResult.is_empty, MatchResult.has_match, List.isEmpty_iff, Nat.pos_iff_ne_zero]

theorem is_empty_false_iff (m : MatchResult) :
    m.is_empty = false ↔ (0 < m.len ∨ m.insert_segments ≠ []) := by
  rw [← Bool.not_eq_true, is_empty_true_iff]
  constructor
  · intro h
    by_cases h0 : 0 < m.len
    · exact Or.inl h0
    · exact Or.inr fun hc => h ⟨by omega, hc⟩
  · rintro (h | h) ⟨h1, h2⟩
    · omega
    · exact h h2

/-- C5 counterexample: two empty match results at different indices.  Both
are empty (zero-length span, no insertions), yet appending the second to the
first yields the second, not the first: an empty result is not a two-sided
identity element on empty operands. -/
theorem append_empty_not_right_identity :
    (MatchResult.empty_at 5).is_empty = true ∧
    (MatchResult.empty_at 3).is_empty = true ∧
    (MatchResult.empty_at 5).append (MatchResult.empty_at 3) ≠ MatchResult.empty_at 5 := by
  refine ⟨rfl, rfl, ?_⟩
  intro h
  have h2 := congrArg (fun m => m.span.start) h
  have h3 : (3 : Nat) = 5 := h2
  omega

/-- C5 amended: an empty match result `e` (zero-length span, no pending
insertions) is a left identity of `append` for every operand, and a right
identity for every non-empty operand; appending `e` to an empty operand
returns `e` itself (the right-hand operand) instead. -/
theorem append_empty_identity (e m : MatchResult)
    (h1 : e.span.start = e.span.stop) (h2 : e.insert_segments = []) :
    e.append m = m
    ∧ (m.is_empty = false → m.append e = m)
    ∧ (m.is_empty = true → m.append e = e) := by
  have he : e.is_empty = true := by
    rw [is_empty_true_iff]
    exact ⟨by simp [MatchResult.len, h1], h2⟩
  refine ⟨append_of_empty_left e m he, ?_, ?_⟩
  · intro hm
    exact append_of_empty_right m e hm he
  · intro hm
    exact append_of_empty_left m e hm

/-- C5 amended, instantiated: the empty result at index 0 composed with the
span 0..2 in both orders. -/
theorem append_empty_identity_witness :
    (MatchResult.empty_at 0).append (MatchResult.from_span 0 2) = MatchResult.from_span 0 2
    ∧ ((MatchResult.from_span 0 2).is_empty = false →
        (MatchResult.from_span 0 2).append (MatchResult.empty_at 0) = MatchResult.from_span 0 2)
    ∧ ((MatchResult.from_span 0 2).is_empty = true →
        (MatchResult.from_span 0 2).append (MatchResult.empty_at 0) = MatchResult.empty_at 0) :=
  append_empty_identity (MatchResult.empty_at 0) (MatchResult.from_span 0 2) rfl rfl

/-- C6 counterexample: the operand spans are adjacent and in order, yet
`append` is not associative: `(a.append b)` is a zero-length untagged result
with no top-level insertions, so it is dropped as "empty" by the next
`append` and its two children are lost, while the right-associated
composition keeps them. -/
theorem append_not_associative :
    (c6a.span.stop = c6b.span.start ∧ c6b.span.stop = c6c.span.start) ∧
    c6a.is_empty = false ∧ c6b.is_empty = false ∧ c6c.is_empty = false ∧
    ((c6a.append c6b).append c6c).child_matches = [] ∧
    (c6a.append (c6b.append c6c)).child_matches = [c6a, c6b] ∧
    (c6a.append c6b).append c6c ≠ c6a.append (c6b.append c6c) := by
  refine ⟨⟨rfl, rfl⟩, rfl, rfl, rfl, rfl, rfl, ?_⟩
  intro h
  have h2 := congrArg MatchResult.child_matches h
  have h3 : ([] : List MatchResult) = [c6a, c6b] := h2
  exact absurd h3 (by simp)

/-- The composite of two non-empty results under the stated span ordering is
non-empty, provided neither operand is a tagged zero-length result carrying
pending insertions. -/
theorem append_nonempty_of_nonempty (a b : MatchResult)
    (ha : a.is_empty = false) (hb : b.is_empty = false)
    (wfa : a.span.start ≤ a.span.stop)
    (hab1 : a.span.start ≤ b.span.start) (hab2 : b.span.start ≤ a.span.stop)
    (hab3 : a.span.stop ≤ b.span.stop)
    (hxa : a.matched.isSome = true → 0 < a.len ∨ a.insert_segments = []) :
    (a.append b).is_empty = false := by
  rw [append_of_nonempty a b ha hb, is_empty_false_iff]
  by_cases hlen : 0 < b.span.stop - a.span.start
  · exact Or.inl hlen
  · -- Zero combined length forces all four span endpoints to coincide,
    -- so `a` is non-empty only through its insertions.
    have hza : a.len = 0 := by
      rw [len_eq]
      omega
    have hins : a.insert_segments ≠ [] := by
      rcases (is_empty_false_iff a).mp ha with h | h
      · omega
      · exact h
    have huntagged : a.matched.isSome = false := by
      by_cases hm : a.matched.isSome
      · rcases hxa hm with h | h
        · omega
        · exact absurd h hins
      · simpa using hm
    refine Or.inr ?_
    show flattenInserts a ++ flattenInserts b ≠ []
    simp only [flattenInserts, huntagged]
    simp [hins]

/-- C6 amended: `append` is associative for match results whose spans are
well-formed, adjacent-or-overlapping and in order, provided no operand is a
tagged zero-length result carrying pending insertions (the shape exhibited
by the counterexample); moreover the combined span is the set-union of the
operand spans, and when all three operands are non-empty the combined
result is untagged and its children are the flattened non-empty
sub-results in order. -/
theorem append_assoc_of_no_tagged_point (a b c : MatchResult)
    (wfa : a.span.start ≤ a.span.stop) (wfb : b.span.start ≤ b.span.stop)
    (wfc : c.span.start ≤ c.span.stop)
    (hab1 : a.span.start ≤ b.span.start) (hab2 : b.span.start ≤ a.span.stop)
    (hab3 : a.span.stop ≤ b.span.stop)
    (hbc1 : b.span.start ≤ c.span.start) (hbc2 : c.span.start ≤ b.span.stop)
    (hbc3 : b.span.stop ≤ c.span.stop)
    (hxa : a.matched.isSome = true → 0 < a.len ∨ a.insert_segments = [])
    (hxb : b.matched.isSome = true → 0 < b.len ∨ b.insert_segments = [])
    (hxc : c.matched.isSome = true → 0 < c.len ∨ c.insert_segments = []) :
    (a.append b).append c = a.append (b.append c)
    ∧ (∀ i, (((a.append b).append c).span.start ≤ i ∧ i < ((a.append b).append c).span.stop) ↔
        ((a.span.start ≤ i ∧ i < a.span.stop) ∨ (b.span.start ≤ i ∧ i < b.span.stop) ∨
         (c.span.start ≤ i ∧ i < c.span.stop)))
    ∧ (a.is_empty = false → b.is_empty = false → c.is_empty = false →
        ((a.append b).append c).matched = none ∧
        ((a.append b).append c).child_matches =
          flattenChildren a ++ flattenChildren b ++ flattenChildren c) := by
  have hea := is_empty_true_iff a
  have heb := is_empty_true_iff b
  have hec := is_empty_true_iff c
  by_cases ha : a.is_empty
  · -- `a` empty: both sides are `b.append c`.
    have hza : a.len = 0 := ((is_empty_true_iff a).mp ha).1
    rw [append_of_empty_left a b ha, append_of_empty_left a (b.append c) ha]
    refine ⟨rfl, ?_, ?_⟩
    · by_cases hbe : b.is_empty
      · have hzb : b.len = 0 := ((is_empty_true_iff b).mp hbe).1
        rw [append_of_empty_left b c hbe]
        intro i
        rw [len_eq] at hza hzb
        constructor
        · intro hi
          exact Or.inr (Or.inr hi)
        · rintro (h | h | h)
          · omega
          · omega
          · exact h
      · by_cases hce : c.is_empty
        · have hzc : c.len = 0 := ((is_empty_true_iff c).mp hce).1
          rw [append_of_empty_right b c (by simpa using hbe) hce]
          intro i
          rw [len_eq] at hza hzc
          constructor
          · intro hi
            exact Or.inr (Or.inl hi)
          · rintro (h | h | h)
            · omega
            · exact h
            · omega
        · rw [append_of_nonempty b c (by simpa using hbe) (by simpa using hce)]
          intro i
          rw [len_eq] at hza
          simp only [span_mk]
          constructor
          · intro hi
            by_cases hib : i < b.span.stop
            · exact Or.inr (Or.inl ⟨hi.1, hib⟩)
            · exact Or.inr (Or.inr ⟨by omega, hi.2⟩)
          · rintro (h | h | h) <;> constructor <;> omega
    · intro haf
      rw [haf] at ha
      exact absurd ha (by simp)
  · have ha' : a.is_empty = false := by simpa using ha
    by_cases hbe : b.is_empty
    · -- `b` empty: both sides are `a.append c`.
      have hzb : b.len = 0 := ((is_empty_true_iff b).mp hbe).1
      rw [append_of_empty_right a b ha' hbe, append_of_empty_left b c hbe]
      refine ⟨rfl, ?_, ?_⟩
      · by_cases hce : c.is_empty
        · have hzc : c.len = 0 := ((is_empty_true_iff c).mp hce).1
          rw [append_of_empty_right a c ha' hce]
          intro i
          rw [len_eq] at hzb hzc
          constructor
          · intro hi
            exact Or.inl hi
          · rintro (h | h | h)
            · exact h
            · omega
            · omega
        · rw [append_of_nonempty a c ha' (by simpa using hce)]
          intro i
          rw [len_eq] at hzb
          simp only [span_mk]
          constructor
          · intro hi
            by_cases hia : i < a.span.stop
            · exact Or.inl ⟨hi.1, hia⟩
            · exact Or.inr (Or.inr ⟨by omega, hi.2⟩)
          · rintro (h | h | h) <;> constructor <;> omega
      · intro _ hbf
        rw [hbf] at hbe
        exact absurd hbe (by simp)
    · have hb' : b.is_empty = false := by simpa using hbe
      by_cases hce : c.is_empty
      · -- `c` empty: both sides are `a.append b`.
        have hzc : c.len = 0 := ((is_empty_true_iff c).mp hce).1
        have hnab : (a.append b).is_empty = false :=
          append_nonempty_of_nonempty a b ha' hb' wfa hab1 hab2 hab3 hxa
        rw [append_of_empty_right (a.append b) c hnab hce,
          append_of_empty_right b c hb' hce]
        refine ⟨rfl, ?_, ?_⟩
        · rw [append_of_nonempty a b ha' hb']
          intro i
          rw [len_eq] at hzc
          simp only [span_mk]
          constructor
          · intro hi
            by_cases hia : i < a.span.stop
            · exact Or.inl ⟨hi.1, hia⟩
            · exact Or.inr (Or.inl ⟨by omega, hi.2⟩)
          · rintro (h | h | h) <;> constructor <;> omega
        · intro _ _ hcf
          rw [hcf] at hce
          exact absurd hce (by simp)
      · have hc' : c.is_empty = false := by simpa using hce
        have hnab : (a.append b).is_empty = false :=
          append_nonempty_of_nonempty a b ha' hb' wfa hab1 hab2 hab3 hxa
        have hnbc : (b.append c).is_empty = false :=
          append_nonempty_of_nonempty b c hb' hc' wfb hbc1 hbc2 hbc3 hxb
        have hab := append_of_nonempty a b ha' hb'
        have hbc := append_of_nonempty b c hb' hc'
        have hlhs : (a.append b).append c = .mk ⟨a.span.start, c.span.stop⟩ none
            (flattenInserts a ++ flattenInserts b ++ flattenInserts c)
            (flattenChildren a ++ flattenChildren b ++ flattenChildren c) := by
          rw [append_of_nonempty (a.append b) c hnab hc', hab]
          simp [flattenInserts, flattenChildren, matched_mk, span_mk,
            insert_segments_mk, child_matches_mk]
        have hrhs : a.append (b.append c) = .mk ⟨a.span.start, c.span.stop⟩ none
            (flattenInserts a ++ (flattenInserts b ++ flattenInserts c))
            (flattenChildren a ++ (flattenChildren b ++ flattenChildren c)) := by
          rw [append_of_nonempty a (b.append c) ha' hnbc, hbc]
          simp [flattenInserts, flattenChildren, matched_mk, span_mk,
            insert_segments_mk, child_matches_mk]
        refine ⟨?_, ?_, ?_⟩
        · rw [hlhs, hrhs, List.append_assoc, List.append_assoc]
        · intro i
          rw [hlhs]
          simp only [span_mk]
          constructor
          · intro hi
            by_cases hia : i < a.span.stop
            · exact Or.inl ⟨hi.1, hia⟩
            · by_cases hib : i < b.span.stop
              · exact Or.inr (Or.inl ⟨by omega, hib⟩)
              · exact Or.inr (Or.inr ⟨by omega, hi.2⟩)
          · rintro (h | h | h) <;> constructor <;> omega
        · intro _ _ _
          rw [hlhs]
          exact ⟨rfl, rfl⟩

/-- C6 amended, instantiated on three adjacent plain spans 0..1, 1..2, 2..3. -/
theorem append_assoc_witness :
    ((MatchResult.from_span 0 1).append (MatchResult.from_span 1 2)).append
        (MatchResult.from_span 2 3)
      = (MatchResult.from_span 0 1).append
          ((MatchResult.from_span 1 2).append (MatchResult.from_span 2 3)) :=
  (append_assoc_of_no_tagged_point (MatchResult.from_span 0 1) (MatchResult.from_span 1 2)
    (MatchResult.from_span 2 3)
    (by decide) (by decide) (by decide) (by decide) (by decide) (by decide)
    (by decide) (by decide) (by decide)
    (fun h => nomatch h) (fun h => nomatch h) (fun h => nomatch h)).1

theorem spliceEdits_consumed (t : EditType) (seg : Segment) (es : List Segment) :
    spliceEdits t seg es true = es := by
  induction es with
  | nil => rfl
  | cons s rest ih => simp [spliceEdits, ih]

theorem spliceEdits_non_replace (t : EditType) (seg : Segment) (es : List Segment)
    (c : Bool) (h : t ≠ EditType.replace) : spliceEdits t seg es c = es := by
  induction es generalizing c with
  | nil => rfl
  | cons s rest ih => simp [spliceEdits, h, ih]

/-- C3: `apply_fixes` with an empty fix map returns the input tree itself
(the very same value: equal by structure and content), empty before/after
lists and `validated = true`, for every fuel value: the early return fires
before any repositioning or recursion. -/
theorem apply_fixes_empty_map (fuel : Nat) (tree : Segment) :
    applyFixes fuel tree [] = some (tree, [], [], true, []) := by
  unfold applyFixes
  simp

/-- C1: an anchor whose pending fixes consist of exactly one CreateAfter fix
(a CreateAfter requested alone, not paired with a CreateBefore) contributes
the original anchor segment followed by the inserted segments to the
rebuilt child list: the anchor is retained, pushed before the insertions. -/
theorem apply_fixes_create_after_alone (seg : Segment) (anchor_info : AnchorEditInfo)
    (f : LintFix) (es : List Segment) (fixes fixes' : FixMap) (rest : List Segment)
    (hf : anchor_info.fixes = [f]) (ht : f.edit_type = EditType.createAfter)
    (he : f.edit = some es) (hrm : removeFix fixes seg.id = some (anchor_info, fixes')) :
    (anchorContribution seg anchor_info).1 = seg :: es
    ∧ (applyFixesLoop fixes (seg :: rest)).1
        = (seg :: es) ++ (applyFixesLoop fixes' rest).1 := by
  have hs : spliceEdits EditType.createAfter seg es false = es :=
    spliceEdits_non_replace _ seg es false (by decide)
  have h1 : (anchorContribution seg anchor_info).1 = seg :: es := by
    simp [anchorContribution, hf, ht, he, hs]
  refine ⟨h1, ?_⟩
  simp [applyFixesLoop, hrm, h1]

/-- C1 instantiated: a single anchor token carrying one lone CreateAfter fix
inserting one token; the anchor is kept and precedes the insertion. -/
theorem apply_fixes_create_after_alone_witness :
    (anchorContribution (.token 1 0 none "x")
        ⟨[⟨EditType.createAfter, .token 1 0 none "x", some [.token 2 0 none "y"], []⟩]⟩).1
      = (Segment.token 1 0 none "x") :: [Segment.token 2 0 none "y"]
    ∧ (applyFixesLoop
          [(1, ⟨[⟨EditType.createAfter, .token 1 0 none "x",
                  some [.token 2 0 none "y"], []⟩]⟩)]
          ((Segment.token 1 0 none "x") :: [])).1
        = ((Segment.token 1 0 none "x") :: [Segment.token 2 0 none "y"]) ++
            (applyFixesLoop [] []).1 :=
  apply_fixes_create_after_alone (.token 1 0 none "x")
    ⟨[⟨EditType.createAfter, .token 1 0 none "x", some [.token 2 0 none "y"], []⟩]⟩
    ⟨EditType.createAfter, .token 1 0 none "x", some [.token 2 0 none "y"], []⟩
    [.token 2 0 none "y"]
    [(1, ⟨[⟨EditType.createAfter, .token 1 0 none "x",
            some [.token 2 0 none "y"], []⟩]⟩)]
    [] [] rfl rfl rfl rfl

/-- C7 counterexample: a Replace fix whose first replacement segment has a
different raw text ("A") while the second matches the anchor's raw text
("B").  At splice time the anchor's position marker is assigned to the
second replacement segment, not to the first, so it is false that
replacement segments other than the first receive no position marker (and
no transfer is conditioned on the first segment's raw text). -/
theorem replace_marker_on_second_segment :
    ((anchorContribution (.token 1 0 (some ⟨⟨0, 1⟩, ⟨0, 1⟩, 1, 1⟩) "B")
        ⟨[⟨EditType.replace, .token 1 0 (some ⟨⟨0, 1⟩, ⟨0, 1⟩, 1, 1⟩) "B",
            some [.token 2 0 none "A", .token 3 0 none "B"], []⟩]⟩).1.map
      Segment.position_marker)
      = [none, some ⟨⟨0, 1⟩, ⟨0, 1⟩, 1, 1⟩] := rfl

/-- C7 amended: when `apply_fixes` applies a Replace fix, the anchor's
position marker is preserved onto the first replacement segment whose raw
text equals the anchor's raw text; every other replacement segment is
spliced unchanged (in particular it is not assigned the anchor's marker),
and when no replacement segment matches, the list is spliced entirely
unchanged. -/
theorem replace_preserves_marker_on_first_matching (seg s : Segment)
    (pre post : List Segment)
    (hpre : ∀ q ∈ pre, q.raw ≠ seg.raw) (hs : s.raw = seg.raw) :
    spliceEdits EditType.replace seg (pre ++ s :: post) false
      = pre ++ s.set_position_marker seg.position_marker :: post
    ∧ (∀ es : List Segment, (∀ q ∈ es, q.raw ≠ seg.raw) →
        spliceEdits EditType.replace seg es false = es)
    ∧ ∀ (anchor_info : AnchorEditInfo) (f : LintFix),
        anchor_info.fixes = [f] → f.edit_type = EditType.replace →
        f.edit = some (pre ++ s :: post) →
        (anchorContribution seg anchor_info).1
          = pre ++ s.set_position_marker seg.position_marker :: post := by
  have hmain : spliceEdits EditType.replace seg (pre ++ s :: post) false
      = pre ++ s.set_position_marker seg.position_marker :: post := by
    induction pre with
    | nil =>
        simp only [List.nil_append]
        rw [spliceEdits, if_pos ⟨rfl, rfl, hs⟩, spliceEdits_consumed]
    | cons q pre' ih =>
        have hq : q.raw ≠ seg.raw := hpre q (List.mem_cons_self ..)
        simp only [List.cons_append]
        rw [spliceEdits, if_neg (by simp [hq])]
        rw [ih fun r hr => hpre r (List.mem_cons_of_mem _ hr)]
  have hnone : ∀ es : List Segment, (∀ q ∈ es, q.raw ≠ seg.raw) →
      spliceEdits EditType.replace seg es false = es := by
    intro es
    induction es with
    | nil => intro _; rfl
    | cons q rest ih =>
        intro h
        have hq : q.raw ≠ seg.raw := h q (List.mem_cons_self ..)
        rw [spliceEdits, if_neg (by simp [hq])]
        rw [ih fun r hr => h r (List.mem_cons_of_mem _ hr)]
  refine ⟨hmain, hnone, ?_⟩
  intro anchor_info f hf ht he
  simp [anchorContribution, hf, ht, he, hmain]

/-- C7 amended, instantiated: the anchor's marker lands on the second
replacement segment (the first whose raw text matches), the first stays
markerless. -/
theorem replace_preserves_marker_witness :
    spliceEdits EditType.replace (.token 1 0 (some ⟨⟨0, 1⟩, ⟨0, 1⟩, 1, 1⟩) "B")
        ([Segment.token 2 0 none "A"] ++ (Segment.token 3 0 none "B") :: []) false
      = [Segment.token 2 0 none "A"] ++
          (Segment.set_position_marker (.token 3 0 none "B")
            (Segment.position_marker (.token 1 0 (some ⟨⟨0, 1⟩, ⟨0, 1⟩, 1, 1⟩) "B"))) :: [] :=
  (replace_preserves_marker_on_first_matching
    (.token 1 0 (some ⟨⟨0, 1⟩, ⟨0, 1⟩, 1, 1⟩) "B") (.token 3 0 none "B")
    [Segment.token 2 0 none "A"] []
    (by
      intro q hq
      rw [List.mem_singleton] at hq
      subst hq
      decide)
    rfl).1

theorem isPrefixOf_append_self (pat ys : List Char) :
    pat.isPrefixOf (pat ++ ys) = true := by
  induction pat with
  | nil => simp [List.isPrefixOf]
  | cons c cs ih => simp [List.isPrefixOf, ih]

theorem listContainsSub_append (pat xs ys : List Char) :
    listContainsSub pat (xs ++ (pat ++ ys)) = true := by
  induction xs with
  | nil =>
      rw [List.nil_append, listContainsSub.eq_def, isPrefixOf_append_self]
      rfl
  | cons c xs' ih =>
      rw [List.cons_append, listContainsSub.eq_def]
      simp [ih]

theorem strContainsSub_append (pre pat post : String) :
    strContainsSub (pre ++ pat ++ post) pat = true := by
  cases pre with
  | mk dpre =>
      cases pat with
      | mk dpat =>
          cases post with
          | mk dpost =>
              show listContainsSub dpat ((dpre ++ dpat) ++ dpost) = true
              rw [List.append_assoc]
              exact listContainsSub_append dpat dpre dpost

set_option maxRecDepth 8000 in
/-- C8 counterexample: `Dialect::ref` on the unregistered name
"FooKeywordSegment" aborts with the keyword message, which names only the
stripped keyword "Foo": the message does not contain the offending name
itself. -/
theorem dialect_ref_keyword_message_lacks_name :
    (Dialect.mk "file" []).ref "FooKeywordSegment" = Except.error (refKeywordMsg "Foo")
    ∧ strContainsSub (refKeywordMsg "Foo") "FooKeywordSegment" = false := by
  constructor
  · show (match lookupElem ([] : List (String × DialectElementType)) "FooKeywordSegment" with
      | some (DialectElementType.matchable m) => Except.ok m
      | some (DialectElementType.segmentGenerator _) =>
          Except.error (unexpectedGeneratorMsg "FooKeywordSegment")
      | none =>
          match stripKeywordSegmentSuffix "FooKeywordSegment" with
          | some keyword => Except.error (refKeywordMsg keyword)
          | none => Except.error (refMissingMsg "FooKeywordSegment"))
      = Except.error (refKeywordMsg "Foo")
    have hstrip : stripKeywordSegmentSuffix "FooKeywordSegment" = some "Foo" := by decide
    rw [lookupElem, hstrip]
  · decide

/-- C8 amended: dialect construction fails fast with a message identifying
the offending name.  For a name absent from the grammar table, `Dialect::ref`
aborts with a message containing the name itself when the name does not end
in "KeywordSegment", and otherwise containing the stripped keyword (the
name minus that suffix); registering under an already-registered name makes
`Dialect::extend` abort with a message containing that name, before any
mutation of the library (construction never continues past the error). -/
theorem dialect_construction_fail_fast :
    (∀ (d : Dialect) (name : String), lookupElem d.library name = none →
      (stripKeywordSegmentSuffix name = none →
          d.ref name = .error (refMissingMsg name)
          ∧ strContainsSub (refMissingMsg name) name = true)
      ∧ ∀ kw, stripKeywordSegmentSuffix name = some kw →
          d.ref name = .error (refKeywordMsg kw)
          ∧ strContainsSub (refKeywordMsg kw) kw = true)
    ∧ ∀ (d : Dialect) (nm : String) (el el' : DialectElementType)
        (rest : List (String × DialectElementType)),
        lookupElem d.library nm = some el' →
          d.extend ((nm, el) :: rest) = .error (extendRepeatedMsg nm)
          ∧ strContainsSub (extendRepeatedMsg nm) nm = true := by
  constructor
  · intro d name hnone
    constructor
    · intro hstrip
      refine ⟨?_, ?_⟩
      · simp [Dialect.ref, hnone, hstrip]
      · exact strContainsSub_append "Grammar refers to \x27" name
          "\x27 which was not found in the dialect."
    · intro kw hkw
      refine ⟨?_, ?_⟩
      · simp [Dialect.ref, hnone, hkw]
      · show strContainsSub
          (("Grammar refers to the \x27" ++ kw ++
              "\x27 keyword which was not found in the dialect.") ++ keywordTip) kw = true
        rw [string_append_assoc ("Grammar refers to the \x27" ++ kw)
          "\x27 keyword which was not found in the dialect." keywordTip]
        exact strContainsSub_append "Grammar refers to the \x27" kw
          ("\x27 keyword which was not found in the dialect." ++ keywordTip)
  · intro d nm el el' rest hsome
    refine ⟨?_, ?_⟩
    · simp [Dialect.extend, check_unique_names, checkUniqueNamesLoop, hsome]
    · exact strContainsSub_append "ERROR: the name \x27" nm "\x27 is repeated."

/-- C8 amended, instantiated: a missing plain name aborts `ref` with a
message containing it, and re-registering an existing name aborts `extend`
with a message containing it. -/
theorem dialect_construction_fail_fast_witness :
    ((Dialect.mk "file" []).ref "bar" = .error (refMissingMsg "bar")
      ∧ strContainsSub (refMissingMsg "bar") "bar" = true)
    ∧ ((Dialect.mk "file" [("foo", DialectElementType.matchable 0)]).extend
          [("foo", DialectElementType.matchable 1)]
        = .error (extendRepeatedMsg "foo")
      ∧ strContainsSub (extendRepeatedMsg "foo") "foo" = true) := by
  constructor
  · exact (dialect_construction_fail_fast.1 (Dialect.mk "file" []) "bar" rfl).1 rfl
  · exact dialect_construction_fail_fast.2
      (Dialect.mk "file" [("foo", DialectElementType.matchable 0)]) "foo"
      (DialectElementType.matchable 1) (DialectElementType.matchable 0) [] rfl

theorem crawlLoop_panic (tree : Segment)
    (evalFn : RuleContext → Except Unit (List LintResult))
    (processFn : LintResult → List SQLLintError × List LintFix)
    (ctxs₁ ctxs₂ : List RuleContext) (cx : RuleContext)
    (hok : ∀ c ∈ ctxs₁, ∃ r, evalFn c = .ok r) (hpanic : evalFn cx = .error ()) :
    ∀ vs fixes, crawlLoop tree evalFn processFn (ctxs₁ ++ cx :: ctxs₂) vs fixes
      = ((crawlLoop tree evalFn processFn ctxs₁ vs fixes).1 ++ [⟨crawlPanicMsg, tree⟩],
         (crawlLoop tree evalFn processFn ctxs₁ vs fixes).2) := by
  induction ctxs₁ with
  | nil =>
      intro vs fixes
      simp [crawlLoop, hpanic]
  | cons c rest ih =>
      intro vs fixes
      obtain ⟨r, hr⟩ := hok c (List.mem_cons_self ..)
      simp only [List.cons_append, crawlLoop, hr]
      exact ih (fun q hq => hok q (List.mem_cons_of_mem _ hq)) _ _

/-- C9: a rule whose `eval` panics at some crawl context does not abort
linting: `crawl` returns normally with exactly one additional lint error,
anchored at the crawled tree and carrying the panic message, appended to the
results collected from the contexts already evaluated (later contexts of
this rule are not evaluated). -/
theorem crawl_catches_rule_panic (tree : Segment) (ctxs₁ ctxs₂ : List RuleContext)
    (cx : RuleContext) (evalFn : RuleContext → Except Unit (List LintResult))
    (processFn : LintResult → List SQLLintError × List LintFix)
    (hok : ∀ c ∈ ctxs₁, ∃ r, evalFn c = .ok r) (hpanic : evalFn cx = .error ()) :
    crawl false tree (ctxs₁ ++ cx :: ctxs₂) evalFn processFn
      = ((crawl false tree ctxs₁ evalFn processFn).1 ++ [⟨crawlPanicMsg, tree⟩],
         (crawl false tree ctxs₁ evalFn processFn).2) := by
  simp only [crawl, Bool.false_eq_true, if_false]
  exact crawlLoop_panic tree evalFn processFn ctxs₁ ctxs₂ cx hok hpanic [] []

/-- C9 instantiated: an `eval` that always panics, crawled over one context;
the crawl returns one panic error anchored at the tree. -/
theorem crawl_catches_rule_panic_witness :
    crawl false (.token 0 0 none "t")
        ([] ++ (⟨.token 0 0 none "t"⟩ : RuleContext) :: [])
        (fun _ => Except.error ()) (fun _ => ([], []))
      = ((crawl false (.token 0 0 none "t") [] (fun _ => Except.error ())
            (fun _ => ([], []))).1
          ++ [⟨crawlPanicMsg, .token 0 0 none "t"⟩],
         (crawl false (.token 0 0 none "t") [] (fun _ => Except.error ())
            (fun _ => ([], []))).2) :=
  crawl_catches_rule_panic (.token 0 0 none "t") [] [] ⟨.token 0 0 none "t"⟩
    (fun _ => Except.error ()) (fun _ => ([], []))
    (by
      intro c hc
      exact absurd hc (List.not_mem_nil c))
    rfl

end SqlForge
